import Mathlib

/-!
Shallow embedding of the libffi native-dependency build logic of
`mx.truffle/mx_truffle.py` (classes `LibffiBuilderProject`, `LibffiBuildTask`
and the nested `LibtoolNativeProject`), together with theorems settling the
specification claims about it.

The filesystem is modelled as a partial map from path strings to entries
(regular files carrying a modification time, or directories carrying their
listing).  Path joining follows `mx.join` (POSIX `os.path.join` with relative
second component).  Side-effecting operations are modelled as explicit
functions on this state; fallible operations return `Except`.
-/

set_option autoImplicit false

namespace Libffi

/-- A filesystem entry: a regular file with a modification time, or a
directory with its listing (the names `os.listdir` would return, in
directory-listing order). -/
inductive FSEntry where
  | file : Nat → FSEntry
  | dir : List String → FSEntry
deriving DecidableEq

/-- A filesystem snapshot: maps each absolute path to its entry, `none` when
nothing exists at that path. -/
def FS : Type := String → Option FSEntry

/-- `mx.join` for a relative second component: `os.path.join(d, name)`. -/
def pjoin (d name : String) : String := d ++ "/" ++ name

/-- `os.path.isdir`. -/
def isdir (fs : FS) (p : String) : Bool :=
  match fs p with
  | some (FSEntry.dir _) => true
  | _ => false

/-- `os.listdir`, as used on a path already known to be a directory;
empty listing otherwise. -/
def listdir (fs : FS) (p : String) : List String :=
  match fs p with
  | some (FSEntry.dir l) => l
  | _ => []

/-- `mx.exists` / `os.path.exists`: any entry at the path, file or directory. -/
def existsPath (fs : FS) (p : String) : Bool := (fs p).isSome

/-- The nested generator `get_patches(patchdir)` of
`LibffiBuilderProject.patches`: if `patchdir` is a directory, yield
`mx.join(patchdir, patch)` for each listed `patch`; otherwise yield nothing. -/
def get_patches (fs : FS) (patchdir : String) : List String :=
  if isdir fs patchdir then (listdir fs patchdir).map (pjoin patchdir) else []

/-- The helper `patch_dir(d)` of `LibffiBuilderProject.patches`:
`mx.join(self.source_dirs()[0], d)` where `srcDir` stands for
`self.source_dirs()[0]`. -/
def patch_dir (srcDir d : String) : String := pjoin srcDir d

/-- The `LibffiBuilderProject.patches` property, fully consumed: patches under
`common`, then, if the path `<srcDir>/<os>-<arch>` exists (`mx.exists`), the
patches under it, otherwise the patches under `others`. -/
def patches (fs : FS) (srcDir os arch : String) : List String :=
  let os_arch_dir := patch_dir srcDir (os ++ "-" ++ arch)
  get_patches fs (patch_dir srcDir "common") ++
    (if existsPath fs os_arch_dir then
      get_patches fs os_arch_dir
    else
      get_patches fs (patch_dir srcDir "others"))

theorem get_patches_of_none {fs : FS} {p : String} (h : fs p = none) :
    get_patches fs p = [] := by
  simp [get_patches, isdir, h]

theorem get_patches_of_file {fs : FS} {p : String} {t : Nat}
    (h : fs p = some (FSEntry.file t)) : get_patches fs p = [] := by
  simp [get_patches, isdir, h]

/-- The end-to-end example of the spec: `common/P1`, `linux-amd64/P2`,
`others/P3` under patch root `src`. -/
def exPatchFS : FS := fun p =>
  if p = "src/common" then some (FSEntry.dir ["P1"])
  else if p = "src/linux-amd64" then some (FSEntry.dir ["P2"])
  else if p = "src/others" then some (FSEntry.dir ["P3"])
  else none

/-- A patch root whose `<os>-<arch>` path is a regular file, with a populated
`others` directory. -/
def exFilePatchFS : FS := fun p =>
  if p = "src/common" then some (FSEntry.dir ["P1"])
  else if p = "src/linux-amd64" then some (FSEntry.file 5)
  else if p = "src/others" then some (FSEntry.dir ["P3"])
  else none

/-- C1: when the `<os>-<arch>` path, if present, is a directory, the resolved
PatchSet is exactly the `common` patches followed by the `<os>-<arch>` patches
when that subdirectory exists and by the `others` patches otherwise; the
exact-platform tier and the `others` tier are mutually exclusive. -/
theorem patches_tiered (fs : FS) (srcDir os arch : String)
    (hdir : fs (patch_dir srcDir (os ++ "-" ++ arch)) = none ∨
      ∃ l, fs (patch_dir srcDir (os ++ "-" ++ arch)) = some (FSEntry.dir l)) :
    patches fs srcDir os arch =
      get_patches fs (patch_dir srcDir "common") ++
        (if isdir fs (patch_dir srcDir (os ++ "-" ++ arch)) then
          get_patches fs (patch_dir srcDir (os ++ "-" ++ arch))
        else
          get_patches fs (patch_dir srcDir "others")) ∧
    (isdir fs (patch_dir srcDir (os ++ "-" ++ arch)) = true →
      patches fs srcDir os arch =
        get_patches fs (patch_dir srcDir "common") ++
          get_patches fs (patch_dir srcDir (os ++ "-" ++ arch))) ∧
    (isdir fs (patch_dir srcDir (os ++ "-" ++ arch)) = false →
      patches fs srcDir os arch =
        get_patches fs (patch_dir srcDir "common") ++
          get_patches fs (patch_dir srcDir "others")) := by
  rcases hdir with h | ⟨l, h⟩
  · have he : existsPath fs (patch_dir srcDir (os ++ "-" ++ arch)) = false := by
      simp [existsPath, h]
    have hd : isdir fs (patch_dir srcDir (os ++ "-" ++ arch)) = false := by
      simp [isdir, h]
    refine ⟨?_, ?_, ?_⟩ <;> simp [patches, he, hd]
  · have he : existsPath fs (patch_dir srcDir (os ++ "-" ++ arch)) = true := by
      simp [existsPath, h]
    have hd : isdir fs (patch_dir srcDir (os ++ "-" ++ arch)) = true := by
      simp [isdir, h]
    refine ⟨?_, ?_, ?_⟩ <;> simp [patches, he, hd]

/-- Witness for C1: the concrete end-to-end scenario of the spec, resolved for
(linux, amd64) and for (darwin, amd64). -/
theorem patches_tiered_witness :
    patches exPatchFS "src" "linux" "amd64" =
      ["src/common/P1", "src/linux-amd64/P2"] ∧
    patches exPatchFS "src" "darwin" "amd64" =
      ["src/common/P1", "src/others/P3"] := by
  refine ⟨?_, ?_⟩
  · exact ((patches_tiered exPatchFS "src" "linux" "amd64"
      (Or.inr ⟨["P2"], by decide⟩)).2.1 (by decide)).trans (by decide)
  · exact ((patches_tiered exPatchFS "src" "darwin" "amd64"
      (Or.inl (by decide))).2.2 (by decide)).trans (by decide)

/-- C8: a missing `common`, `<os>-<arch>` or `others` directory is not an
error; the absent tier contributes zero patches to the resolution. -/
theorem patches_missing_tier (fs : FS) (srcDir os arch : String) :
    (fs (patch_dir srcDir "common") = none →
      patches fs srcDir os arch =
        (if existsPath fs (patch_dir srcDir (os ++ "-" ++ arch)) then
          get_patches fs (patch_dir srcDir (os ++ "-" ++ arch))
        else
          get_patches fs (patch_dir srcDir "others"))) ∧
    (fs (patch_dir srcDir (os ++ "-" ++ arch)) = none →
      patches fs srcDir os arch =
        get_patches fs (patch_dir srcDir "common") ++
          get_patches fs (patch_dir srcDir "others")) ∧
    (fs (patch_dir srcDir (os ++ "-" ++ arch)) = none →
      fs (patch_dir srcDir "others") = none →
      patches fs srcDir os arch = get_patches fs (patch_dir srcDir "common")) ∧
    (fs (patch_dir srcDir "common") = none →
      fs (patch_dir srcDir (os ++ "-" ++ arch)) = none →
      fs (patch_dir srcDir "others") = none →
      patches fs srcDir os arch = []) := by
  refine ⟨?_, ?_, ?_, ?_⟩
  · intro hc
    simp [patches, get_patches_of_none hc]
  · intro ho
    have he : existsPath fs (patch_dir srcDir (os ++ "-" ++ arch)) = false := by
      simp [existsPath, ho]
    simp [patches, he]
  · intro ho hx
    have he : existsPath fs (patch_dir srcDir (os ++ "-" ++ arch)) = false := by
      simp [existsPath, ho]
    simp [patches, he, get_patches_of_none hx]
  · intro hc ho hx
    have he : existsPath fs (patch_dir srcDir (os ++ "-" ++ arch)) = false := by
      simp [existsPath, ho]
    simp [patches, he, get_patches_of_none hc, get_patches_of_none hx]

/-- Witness for C8: on an entirely empty patch root, every tier contributes
zero patches and the resolution is the empty list. -/
theorem patches_missing_tier_witness :
    patches (fun _ => none) "src" "linux" "amd64" = [] :=
  (patches_missing_tier (fun _ => none) "src" "linux" "amd64").2.2.2 rfl rfl rfl

/-- C9: when the `<os>-<arch>` path exists but is a regular file, the
resolution is exactly the `common` patches: the exact-platform tier
contributes nothing (it is not a directory) and the `others` fallback is
skipped (the tier choice tests mere existence). -/
theorem patches_os_arch_regular_file (fs : FS) (srcDir os arch : String) (t : Nat)
    (h : fs (patch_dir srcDir (os ++ "-" ++ arch)) = some (FSEntry.file t)) :
    patches fs srcDir os arch = get_patches fs (patch_dir srcDir "common") := by
  have he : existsPath fs (patch_dir srcDir (os ++ "-" ++ arch)) = true := by
    simp [existsPath, h]
  simp [patches, he, get_patches_of_file h]

/-- Witness for C9: with `common/P1`, a regular file at `linux-amd64` and a
populated `others/P3`, resolving for (linux, amd64) yields only the `common`
patch. -/
theorem patches_os_arch_regular_file_witness :
    patches exFilePatchFS "src" "linux" "amd64" = ["src/common/P1"] :=
  (patches_os_arch_regular_file exFilePatchFS "src" "linux" "amd64" 5
    (by decide)).trans (by decide)

/-- The process environment read by `mx.get_os()` and `mx.get_arch()`.  Both
are deterministic functions of the process state fixed before the build graph
is constructed (platform detection plus command-line overrides parsed at
startup), so one value serves every call made during a run. -/
structure Env where
  os : String
  arch : String
deriving DecidableEq

/-- The platform key (operating system, architecture). -/
def platformKey (e : Env) : String × String := (e.os, e.arch)

/-- The two build-strategy variants of `LibffiBuilderProject.__init__`:
`mx_native.DefaultNativeProject` (direct static compile, Windows) or the
nested `LibtoolNativeProject` (configure-and-make, everything else). -/
inductive DelegateKind where
  | defaultNative : DelegateKind
  | libtool : DelegateKind
deriving DecidableEq

/-- The strategy dispatch of `LibffiBuilderProject.__init__`:
`if mx.get_os() == "windows"` (string compared literally) selects the direct
static compile, `else` the
libtool flow. -/
def selectDelegate (e : Env) : DelegateKind :=
  if e.os = "windows" then DelegateKind.defaultNative else DelegateKind.libtool

/-- The state of a `LibffiBuilderProject` fixed at construction: the
environment in effect when `__init__` ran, the patch source directory
(`self.source_dirs()[0]`), the output root (`self.out_dir`) and the delegate
chosen by `__init__`. -/
structure LibffiBuilderProject where
  envAtConstruction : Env
  srcDir : String
  outDir : String
  delegateKind : DelegateKind

/-- `LibffiBuilderProject.__init__`, run in process environment `e`. -/
def mkLibffiBuilderProject (e : Env) (srcDir outDir : String) :
    LibffiBuilderProject :=
  { envAtConstruction := e
    srcDir := srcDir
    outDir := outDir
    delegateKind := selectDelegate e }

/-- The `patches` property evaluated on a project: line 1116 re-reads
`mx.get_os()` and `mx.get_arch()` from the current process environment `e`
at call time. -/
def projectPatches (e : Env) (proj : LibffiBuilderProject) (fs : FS) :
    List String :=
  patches fs proj.srcDir e.os e.arch

/-- C7: the platform key is fixed for the lifetime of a task instance.  The
delegate chosen at construction is the one selected by the construction-time
key; every later patch resolution, re-reading the constant process
environment, uses exactly the construction-time key; and two evaluations of
the patch resolution over equal filesystem snapshots agree. -/
theorem platform_key_fixed (e : Env) (srcDir outDir : String) (fs fs2 : FS) :
    (mkLibffiBuilderProject e srcDir outDir).delegateKind = selectDelegate e ∧
    (mkLibffiBuilderProject e srcDir outDir).envAtConstruction = e ∧
    projectPatches e (mkLibffiBuilderProject e srcDir outDir) fs =
      patches fs srcDir
        (platformKey (mkLibffiBuilderProject e srcDir outDir).envAtConstruction).1
        (platformKey (mkLibffiBuilderProject e srcDir outDir).envAtConstruction).2 ∧
    ((∀ p, fs p = fs2 p) →
      projectPatches e (mkLibffiBuilderProject e srcDir outDir) fs =
        projectPatches e (mkLibffiBuilderProject e srcDir outDir) fs2) := by
  refine ⟨rfl, rfl, rfl, ?_⟩
  intro h
  have hfs : fs = fs2 := funext h
  rw [hfs]

/-- Witness for C7: a concrete (linux, amd64) project over the example patch
root; both patch evaluations agree and use the construction-time key. -/
theorem platform_key_fixed_witness :
    (mkLibffiBuilderProject ⟨"linux", "amd64"⟩ "src" "out").delegateKind =
      selectDelegate ⟨"linux", "amd64"⟩ ∧
    projectPatches ⟨"linux", "amd64"⟩
        (mkLibffiBuilderProject ⟨"linux", "amd64"⟩ "src" "out") exPatchFS =
      projectPatches ⟨"linux", "amd64"⟩
        (mkLibffiBuilderProject ⟨"linux", "amd64"⟩ "src" "out") exPatchFS :=
  ⟨(platform_key_fixed ⟨"linux", "amd64"⟩ "src" "out" exPatchFS exPatchFS).1,
    (platform_key_fixed ⟨"linux", "amd64"⟩ "src" "out" exPatchFS
      exPatchFS).2.2.2 (fun _ => rfl)⟩

/-- Modification time of a path: `some` for a regular file, `none` when the
path is absent (or not a file). -/
def mtime (fs : FS) (p : String) : Option Nat :=
  match fs p with
  | some (FSEntry.file t) => some t
  | _ => none

/-- `mx.TimeStampFile.newest(paths)` viewed through modification times: the
greatest mtime among the paths that exist, `none` when none exists. -/
def newestTime (mt : String → Option Nat) : List String → Option Nat
  | [] => none
  | p :: ps =>
    match mt p, newestTime mt ps with
    | none, r => r
    | some t, none => some t
    | some t, some r => some (max t r)

/-- Updating the modification time of one file (`touch`). -/
def touch (f : String) (t : Nat) (m : String → Option Nat) :
    String → Option Nat :=
  fun g => if g = f then some t else m g

/-- `LibffiBuildTask.needsBuild`: first the generic check of the superclass
(its verdict passed in as `superNeeds`); when it reports fresh, compare the
newest output (`self.newestOutput()`, whose timestamp is `output`, `none` when
it returned `None`) against the newest patch of the resolved PatchSet.
`output.isOlderThan` on a `None` output would raise, hence `Except`. -/
def needsBuild (superNeeds : Bool) (output : Option Nat)
    (patchList : List String) (mt : String → Option Nat) :
    Except String Bool :=
  if superNeeds then Except.ok true
  else
    match newestTime mt patchList with
    | none => Except.ok false
    | some np =>
      match output with
      | none => Except.error "NoneType has no attribute isOlderThan"
      | some o => Except.ok (decide (o < np))

theorem newestTime_congr {m1 m2 : String → Option Nat} :
    ∀ {ps : List String}, (∀ p ∈ ps, m1 p = m2 p) →
      newestTime m1 ps = newestTime m2 ps := by
  intro ps
  induction ps with
  | nil => intro _; rfl
  | cons p ps ih =>
    intro h
    have hp : m1 p = m2 p := h p (List.mem_cons_self p ps)
    have hps : newestTime m1 ps = newestTime m2 ps :=
      ih fun q hq => h q (List.mem_cons_of_mem p hq)
    simp [newestTime, hp, hps]

theorem newestTime_le {m : String → Option Nat} {o : Nat} :
    ∀ {ps : List String}, (∀ p ∈ ps, ∀ t, m p = some t → t ≤ o) →
      ∀ np, newestTime m ps = some np → np ≤ o := by
  intro ps
  induction ps with
  | nil => intro _ np h; simp [newestTime] at h
  | cons p ps ih =>
    intro h np hn
    have hp := h p (List.mem_cons_self p ps)
    have hrec := ih fun q hq => h q (List.mem_cons_of_mem p hq)
    simp only [newestTime] at hn
    cases hmp : m p with
    | none =>
      rw [hmp] at hn
      exact hrec np hn
    | some t =>
      rw [hmp] at hn
      cases hr : newestTime m ps with
      | none =>
        rw [hr] at hn
        cases hn
        exact hp _ hmp
      | some r =>
        rw [hr] at hn
        cases hn
        exact max_le (hp _ hmp) (hrec r hr)

theorem newestTime_mem {m : String → Option Nat} {p : String} {t : Nat} :
    ∀ {ps : List String}, p ∈ ps → m p = some t →
      ∃ np, newestTime m ps = some np ∧ t ≤ np := by
  intro ps
  induction ps with
  | nil => intro h; cases h
  | cons q ps ih =>
    intro hmem hmp
    rcases List.mem_cons.mp hmem with rfl | hmem2
    · cases hr : newestTime m ps with
      | none => exact ⟨t, by simp [newestTime, hmp, hr], le_refl t⟩
      | some r =>
        exact ⟨max t r, by simp [newestTime, hmp, hr], le_max_left t r⟩
    · rcases ih hmem2 hmp with ⟨np, hnp, htnp⟩
      cases hmq : m q with
      | none => exact ⟨np, by simp [newestTime, hmq, hnp], htnp⟩
      | some tq =>
        exact ⟨max tq np, by simp [newestTime, hmq, hnp],
          le_trans htnp (le_max_right tq np)⟩

/-- C2: `needsBuild` is true whenever the generic check reports stale or the
newest output is older than the newest resolved patch; on a fresh build it is
false; touching any patch of the resolved set makes it true; touching a file
outside the resolved set and outside the generic inputs leaves it false. -/
theorem needsBuild_spec
    (superFn : (String → Option Nat) → Bool) (genericInputs : List String)
    (hdep : ∀ m1 m2 : String → Option Nat,
      (∀ f ∈ genericInputs, m1 f = m2 f) → superFn m1 = superFn m2)
    (P : List String) (mt : String → Option Nat) (o : Nat)
    (hsuper : superFn mt = false)
    (hfresh : ∀ p ∈ P, ∀ t, mt p = some t → t ≤ o) :
    (∀ (out : Option Nat) (pl : List String) (m : String → Option Nat),
      needsBuild true out pl m = Except.ok true) ∧
    (∀ (o2 np : Nat) (pl : List String) (m : String → Option Nat),
      newestTime m pl = some np → o2 < np →
      needsBuild false (some o2) pl m = Except.ok true) ∧
    needsBuild (superFn mt) (some o) P mt = Except.ok false ∧
    (∀ p ∈ P, ∀ tn, o < tn →
      needsBuild (superFn (touch p tn mt)) (some o) P (touch p tn mt) =
        Except.ok true) ∧
    (∀ f, f ∉ P → f ∉ genericInputs → ∀ tn,
      needsBuild (superFn (touch f tn mt)) (some o) P (touch f tn mt) =
        Except.ok false) := by
  have hfalse : ∀ (m : String → Option Nat),
      (∀ p ∈ P, ∀ t, m p = some t → t ≤ o) →
      needsBuild false (some o) P m = Except.ok false := by
    intro m hm
    cases hn : newestTime m P with
    | none => simp [needsBuild, hn]
    | some np =>
      have : np ≤ o := newestTime_le hm np hn
      simp [needsBuild, hn, Nat.not_lt.mpr this]
  refine ⟨?_, ?_, ?_, ?_, ?_⟩
  · intro out pl m
    simp [needsBuild]
  · intro o2 np pl m hn ho2
    simp [needsBuild, hn, ho2]
  · rw [hsuper]
    exact hfalse mt hfresh
  · intro p hp tn htn
    cases hs : superFn (touch p tn mt) with
    | true => simp [needsBuild]
    | false =>
      have hval : touch p tn mt p = some tn := by simp [touch]
      rcases newestTime_mem hp hval with ⟨np, hnp, hle⟩
      simp [needsBuild, hnp, Nat.lt_of_lt_of_le htn hle]
  · intro f hfP hfG tn
    have hs : superFn (touch f tn mt) = superFn mt := by
      apply hdep
      intro g hg
      have : g ≠ f := fun h => hfG (h ▸ hg)
      simp [touch, this]
    rw [hs, hsuper]
    apply hfalse
    intro p hp t ht
    have hne : p ≠ f := fun h => hfP (h ▸ hp)
    rw [touch, if_neg hne] at ht
    exact hfresh p hp t ht

/-- Example modification-time map: one patch file at time 1. -/
def exMT : String → Option Nat :=
  fun p => if p = "src/common/P1" then some 1 else none

/-- Witness for C2: with the single patch `src/common/P1` at time 1 and
output at time 1, `needsBuild` is false; after touching the patch at time 2,
it is true. -/
theorem needsBuild_spec_witness :
    needsBuild false (some 1) ["src/common/P1"] exMT = Except.ok false ∧
    needsBuild false (some 1) ["src/common/P1"]
      (touch "src/common/P1" 2 exMT) = Except.ok true := by
  have hfresh : ∀ p ∈ ["src/common/P1"], ∀ t, exMT p = some t → t ≤ 1 := by
    intro p hp t ht
    rcases List.mem_singleton.mp hp with rfl
    simp [exMT] at ht
    omega
  have h := needsBuild_spec (fun _ => false) [] (fun _ _ _ => rfl)
    ["src/common/P1"] exMT 1 rfl hfresh
  exact ⟨h.2.2.1,
    h.2.2.2.1 "src/common/P1" (List.mem_singleton.mpr rfl) 2 (by omega)⟩

/-- Observable side-effecting steps of `LibffiBuildTask.build`: the archive
extraction, each `git apply` invocation (in order), and the delegated
strategy build. -/
inductive BuildStep where
  | extract : BuildStep
  | applyPatch : String → BuildStep
  | delegateBuild : BuildStep
deriving DecidableEq

/-- The patch loop of `LibffiBuildTask.build`: `mx.run(git_apply + [patch])`
for each resolved patch in order; `mx.run` aborts on the first failing
invocation.  Returns the attempted invocations and whether all succeeded. -/
def applyPatches (patchOk : String → Bool) :
    List String → List BuildStep × Bool
  | [] => ([], true)
  | p :: ps =>
    if patchOk p then
      let r := applyPatches patchOk ps
      (BuildStep.applyPatch p :: r.1, r.2)
    else
      ([BuildStep.applyPatch p], false)

/-- `LibffiBuildTask.build`: assert the output root does not exist, extract
the sources, apply the resolved patches in order, then delegate.  The result
is the trace of performed steps and the overall outcome. -/
def build (outDirExists : Bool) (patchList : List String)
    (patchOk : String → Bool) (delegateOk : Bool) :
    List BuildStep × Except String Unit :=
  if outDirExists then
    ([], Except.error "must be cleaned before build")
  else
    let r := applyPatches patchOk patchList
    if r.2 then
      (BuildStep.extract :: r.1 ++ [BuildStep.delegateBuild],
        if delegateOk then Except.ok () else Except.error "delegate build failed")
    else
      (BuildStep.extract :: r.1, Except.error "patch application failed")

theorem applyPatches_all_ok {patchOk : String → Bool} :
    ∀ {ps : List String}, (∀ q ∈ ps, patchOk q = true) →
      applyPatches patchOk ps = (ps.map BuildStep.applyPatch, true) := by
  intro ps
  induction ps with
  | nil => intro _; rfl
  | cons p ps ih =>
    intro h
    have hp : patchOk p = true := h p (List.mem_cons_self p ps)
    have hps := ih fun q hq => h q (List.mem_cons_of_mem p hq)
    simp [applyPatches, hp, hps]

theorem applyPatches_first_fail {patchOk : String → Bool} {p : String}
    (hp : patchOk p = false) :
    ∀ {pre : List String} (post : List String),
      (∀ q ∈ pre, patchOk q = true) →
      applyPatches patchOk (pre ++ p :: post) =
        ((pre ++ [p]).map BuildStep.applyPatch, false) := by
  intro pre
  induction pre with
  | nil => intro post _; simp [applyPatches, hp]
  | cons q pre ih =>
    intro post h
    have hq : patchOk q = true := h q (List.mem_cons_self q pre)
    have hrec := ih post fun x hx => h x (List.mem_cons_of_mem q hx)
    simp [applyPatches, hq, hrec]

/-- C3: when the output root already exists, `build` fails on its opening
assertion with an empty step trace — no extraction, no patch application, no
delegate build; when it does not exist, `build` proceeds, starting with the
extraction. -/
theorem build_staleness_guard (patchList : List String)
    (patchOk : String → Bool) (delegateOk : Bool) :
    build true patchList patchOk delegateOk =
      ([], Except.error "must be cleaned before build") ∧
    (∃ rest, (build false patchList patchOk delegateOk).1 =
      BuildStep.extract :: rest) := by
  refine ⟨rfl, ?_⟩
  cases h : (applyPatches patchOk patchList).2 with
  | true =>
    exact ⟨(applyPatches patchOk patchList).1 ++ [BuildStep.delegateBuild],
      by simp [build, h]⟩
  | false =>
    exact ⟨(applyPatches patchOk patchList).1, by simp [build, h]⟩

/-- C4: patches are applied one at a time in resolver order; a failure at any
patch ends the trace at that patch (no later patch is attempted and the
delegate build never runs), and the whole build errors; when every patch
applies, the full list is applied in order and then the delegate runs. -/
theorem build_patch_order (patchOk : String → Bool) (delegateOk : Bool)
    (pre post : List String) (p : String)
    (hpre : ∀ q ∈ pre, patchOk q = true) (hp : patchOk p = false) :
    (build false (pre ++ p :: post) patchOk delegateOk).1 =
      BuildStep.extract :: (pre ++ [p]).map BuildStep.applyPatch ∧
    (build false (pre ++ p :: post) patchOk delegateOk).2 =
      Except.error "patch application failed" ∧
    BuildStep.delegateBuild ∉ (build false (pre ++ p :: post) patchOk delegateOk).1 ∧
    (∀ ps : List String, (∀ q ∈ ps, patchOk q = true) →
      (build false ps patchOk delegateOk).1 =
        BuildStep.extract :: ps.map BuildStep.applyPatch ++ [BuildStep.delegateBuild]) := by
  have happ := applyPatches_first_fail hp post hpre
  refine ⟨?_, ?_, ?_, ?_⟩
  · simp [build, happ]
  · simp [build, happ]
  · simp [build, happ, List.mem_map]
  · intro ps hps
    simp [build, applyPatches_all_ok hps]

/-- Patch-apply oracle for the C4 witness: every patch but `b` applies. -/
def exPatchOk : String → Bool := fun q => q != "b"

/-- Witness for C4: with patches `[a, b, c]` where `b` fails, the trace stops
right after `b` and the delegate build never runs. -/
theorem build_patch_order_witness :
    (build false ["a", "b", "c"] exPatchOk true).1 =
      [BuildStep.extract, BuildStep.applyPatch "a", BuildStep.applyPatch "b"] ∧
    BuildStep.delegateBuild ∉ (build false ["a", "b", "c"] exPatchOk true).1 := by
  have h := build_patch_order exPatchOk true ["a"] ["c"] "b"
    (by intro q hq; rcases List.mem_singleton.mp hq with rfl; decide)
    (by decide)
  exact ⟨h.1.trans (by decide), h.2.2.1⟩

/-- Strict containment of a path below a root directory: `<root>/` is a
prefix of the path. -/
def isUnder (root p : String) : Bool :=
  List.isPrefixOf (root.data ++ [Char.ofNat 47]) p.data

/-- Effect of recursively removing `root`: the root and everything below it
are gone, everything else untouched. -/
def rmtree (fs : FS) (root : String) : FS :=
  fun p => if p = root ∨ isUnder root p then none else fs p

/-- `mx.rmtree(path, ignore_errors)`: removal errors (such as a missing
path) are raised unless `ignore_errors` is set, in which case they are
swallowed and removal proceeds as far as possible. -/
def rmtreeE (fs : FS) (root : String) (ignoreErrors : Bool) :
    Except String FS :=
  if ignoreErrors || existsPath fs root then Except.ok (rmtree fs root)
  else Except.error "No such file or directory"

set_option linter.unusedVariables false in
/-- `LibffiBuildTask.clean(forBuild)`:
`mx.rmtree(self.subject.out_dir, ignore_errors=True)`.  The `forBuild`
argument is accepted and ignored. -/
def clean (outDir : String) (forBuild : Bool) (fs : FS) : Except String FS :=
  rmtreeE fs outDir true

/-- `LibffiBuildTask.newestOutput`: the delegate nominates its newest output
path; a nominated path that no longer exists yields `None`. -/
def newestOutput (delegateOut : Option String) (fs : FS) : Option String :=
  match delegateOut with
  | some p => if existsPath fs p then some p else none
  | none => none

/-- Modelled from the spec: the generic freshness check of the delegated
strategy (`mx.AbstractNativeBuildTask.needsBuild`, not in src/) — the task is
stale when no prior output exists, besides whatever else the generic
input-comparison reports (`genericStale`). -/
def superNeedsBuildSpec (genericStale : Bool) (output : Option String) : Bool :=
  output.isNone || genericStale

theorem rmtree_idem (fs : FS) (root : String) :
    rmtree (rmtree fs root) root = rmtree fs root := by
  funext p
  by_cases h : p = root ∨ isUnder root p = true <;> simp [rmtree, h]

/-- C5: `clean` succeeds on every filesystem state (errors are ignored), is
idempotent (a second `clean` succeeds and changes nothing), leaves no
working directory behind, and afterwards `needsBuild` reports stale. -/
theorem clean_idempotent (outDir : String) (fs : FS)
    (delegateOut : Option String) (genericStale : Bool)
    (patchList : List String)
    (hout : ∀ p, delegateOut = some p → isUnder outDir p = true) :
    clean outDir false fs = Except.ok (rmtree fs outDir) ∧
    clean outDir false (rmtree fs outDir) = Except.ok (rmtree fs outDir) ∧
    existsPath (rmtree fs outDir) outDir = false ∧
    needsBuild
      (superNeedsBuildSpec genericStale
        (newestOutput delegateOut (rmtree fs outDir)))
      ((newestOutput delegateOut (rmtree fs outDir)).bind
        (mtime (rmtree fs outDir)))
      patchList (mtime (rmtree fs outDir)) = Except.ok true := by
  have hnone : newestOutput delegateOut (rmtree fs outDir) = none := by
    cases hdo : delegateOut with
    | none => rfl
    | some p =>
      have hu : isUnder outDir p = true := hout p hdo
      have : rmtree fs outDir p = none := by simp [rmtree, hu]
      simp [newestOutput, existsPath, this]
  refine ⟨rfl, ?_, ?_, ?_⟩
  · show rmtreeE (rmtree fs outDir) outDir true = Except.ok (rmtree fs outDir)
    simp [rmtreeE, rmtree_idem]
  · simp [existsPath, rmtree]
  · rw [hnone]
    simp [needsBuild, superNeedsBuildSpec]

/-- Witness for C5: cleaning the example tree succeeds, leaves no output
root, and makes `needsBuild` report stale. -/
theorem clean_idempotent_witness :
    clean "out" false exPatchFS = Except.ok (rmtree exPatchFS "out") ∧
    existsPath (rmtree exPatchFS "out") "out" = false ∧
    needsBuild
      (superNeedsBuildSpec false
        (newestOutput (some "out/libffi-build/.libs/libffi.a")
          (rmtree exPatchFS "out")))
      ((newestOutput (some "out/libffi-build/.libs/libffi.a")
          (rmtree exPatchFS "out")).bind (mtime (rmtree exPatchFS "out")))
      [] (mtime (rmtree exPatchFS "out")) = Except.ok true := by
  have h := clean_idempotent "out" exPatchFS
    (some "out/libffi-build/.libs/libffi.a") false []
    (fun p hp => by injection hp with h2; subst h2; decide)
  exact ⟨h.1, h.2.2.1, h.2.2.2⟩

/-- C10: `clean` behaves identically for every value of `forBuild`: the
whole working directory is removed either way, and paths outside it are
untouched. -/
theorem clean_ignores_forBuild (outDir : String) (fs : FS) (b1 b2 : Bool) :
    clean outDir b1 fs = clean outDir b2 fs ∧
    clean outDir b1 fs = Except.ok (rmtree fs outDir) ∧
    (∀ p, p = outDir ∨ isUnder outDir p = true → rmtree fs outDir p = none) ∧
    (∀ p, p ≠ outDir → isUnder outDir p = false → rmtree fs outDir p = fs p) := by
  refine ⟨rfl, rfl, ?_, ?_⟩
  · intro p hp
    simp [rmtree, hp]
  · intro p h1 h2
    have : ¬(p = outDir ∨ isUnder outDir p = true) := by
      rintro (h | h)
      · exact h1 h
      · rw [h2] at h; cases h
    simp [rmtree, this]

/-- Witness for C10: a clean for build and a full clean agree on the example
tree, and a file under the output root is removed. -/
theorem clean_ignores_forBuild_witness :
    clean "out" true exPatchFS = clean "out" false exPatchFS ∧
    rmtree exPatchFS "out" "out/libffi-build/.libs/libffi.a" = none := by
  have h := clean_ignores_forBuild "out" exPatchFS true false
  exact ⟨h.1, h.2.2.1 "out/libffi-build/.libs/libffi.a" (Or.inr (by decide))⟩

/-- The path separator. -/
def slash : Char := Char.ofNat 47

/-- `os.path.basename` (POSIX): everything after the last separator. -/
def basename (p : String) : String :=
  String.mk ((p.data.reverse.takeWhile (fun c => c != slash)).reverse)

/-- `os.path.dirname` (POSIX): everything up to the last separator, with
trailing separators stripped unless the head is all separators. -/
def dirname (p : String) : String :=
  let head := (p.data.reverse.dropWhile (fun c => c != slash)).reverse
  if head.isEmpty || head.all (fun c => c == slash) then String.mk head
  else String.mk ((head.reverse.dropWhile (fun c => c == slash)).reverse)

/-- `LibtoolNativeProject.getArchivableResults`, the generator fully
consumed: each `(file_path, archive_path)` pair of the superclass is
re-yielded, with the archive path replaced by its basename when the file
sits directly in a `.libs` directory (the libtool `LT_OBJDIR`); with
`single=True` only the first pair is produced and the assertion that it
comes from `LT_OBJDIR` is checked as the generator resumes. -/
def getArchivableResults (superResults : List (String × String))
    (single : Bool) : Except String (List (String × String)) :=
  if single then
    match superResults with
    | [] => Except.ok []
    | (fp, ap) :: _ =>
      if basename (dirname fp) = ".libs" then Except.ok [(fp, basename ap)]
      else Except.error "the first build result must be from LT_OBJDIR"
  else
    Except.ok (superResults.map fun r =>
      (r.1, if basename (dirname r.1) = ".libs" then basename r.2 else r.2))

/-- C6: without `single`, every result whose file sits directly in `.libs`
gets its archive path replaced by its basename and every other result is
unchanged; with `single=True`, the first result must come from `.libs`,
giving that one transformed pair, and anything else trips the assertion. -/
theorem lt_archivable_results (rs : List (String × String)) :
    getArchivableResults rs false =
      Except.ok (rs.map fun r =>
        (r.1, if basename (dirname r.1) = ".libs" then basename r.2 else r.2)) ∧
    (∀ fp ap rest, rs = (fp, ap) :: rest →
      (basename (dirname fp) = ".libs" →
        getArchivableResults rs true = Except.ok [(fp, basename ap)]) ∧
      (basename (dirname fp) ≠ ".libs" →
        getArchivableResults rs true =
          Except.error "the first build result must be from LT_OBJDIR")) := by
  refine ⟨rfl, ?_⟩
  rintro fp ap rest rfl
  constructor
  · intro h
    simp [getArchivableResults, h]
  · intro h
    simp [getArchivableResults, h]

/-- Witness for C6: the library under `.libs` is flattened to its basename,
the header keeps its archive path, and `single=True` yields the library. -/
theorem lt_archivable_results_witness :
    getArchivableResults
        [("out/.libs/libffi.a", "libffi-build/.libs/libffi.a"),
          ("out/include/ffi.h", "include/ffi.h")] false =
      Except.ok
        [("out/.libs/libffi.a", "libffi.a"),
          ("out/include/ffi.h", "include/ffi.h")] ∧
    getArchivableResults
        [("out/.libs/libffi.a", "libffi-build/.libs/libffi.a"),
          ("out/include/ffi.h", "include/ffi.h")] true =
      Except.ok [("out/.libs/libffi.a", "libffi.a")] := by
  have h := lt_archivable_results
    [("out/.libs/libffi.a", "libffi-build/.libs/libffi.a"),
      ("out/include/ffi.h", "include/ffi.h")]
  refine ⟨h.1.trans (congrArg Except.ok (by decide)), ?_⟩
  exact ((h.2 "out/.libs/libffi.a" "libffi-build/.libs/libffi.a"
    [("out/include/ffi.h", "include/ffi.h")] rfl).1 (by decide)).trans
    (congrArg Except.ok (by decide))

end Libffi
